import Mathlib

/-!
Verification development for `learn_center_loss.py` (semantic-embeddings).

The script trains an image-embedding network with a joint softmax and
center-loss objective.  We give a shallow embedding of its pure parts:
tensors are nested lists of rationals, shapes are lists of naturals,
the layer list of the built Keras model is a `List Layer`, and a
training step is a relation that may change the weights of trainable
layers only.  Python floats are modelled by `ℚ` (the code does exact
arithmetic on small values in every claim we treat), numpy integer
arrays by `List Nat` or `List Int`.
-/

/- ## Batch transform (`transform_inputs`, line 44-46) and
      `keras.utils.to_categorical` -/

/-- Numpy index resolution for an integer index into a dimension of size
`n`: indices in `[0, n)` are taken as-is, indices in `[-n, 0)` wrap to
`n + i`, anything else raises `IndexError` (modelled as `none`).  This is
the indexing used by `categorical[np.arange(n), y] = 1` inside
`keras.utils.to_categorical`. -/
def npIndex (n : Nat) (i : Int) : Option Nat :=
  if 0 ≤ i ∧ i < (n : Int) then some i.toNat
  else if -(n : Int) ≤ i ∧ i < 0 then some (i + n).toNat
  else none

/-- Row `i` of a one-hot identity of width `n`. -/
def oneHotRow (n : Nat) (i : Nat) : List ℚ :=
  (List.range n).map (fun j => if j = i then 1 else 0)

/-- Traversal of a list under a fallible function, failing as soon as
one element fails (the effect of a numpy/Python operation that raises on
the first offending element). -/
def traverseOption (f : α → Option β) : List α → Option (List β)
  | [] => some []
  | a :: t =>
      match f a, traverseOption f t with
      | some b, some bs => some (b :: bs)
      | _, _ => none

/-- Embedding of `keras.utils.to_categorical(y, num_classes)`: a zero
matrix of shape `(len y, n)` with a `1` written at column `y[k]` of row
`k` by numpy fancy indexing; fails (IndexError) iff some resolved index
is out of bounds. -/
def to_categorical (y : List Int) (n : Nat) : Option (List (List ℚ)) :=
  (traverseOption (npIndex n) y).map (fun idxs => idxs.map (oneHotRow n))

/-- Embedding of `transform_inputs(X, y, num_classes)` (source line 44-46):
returns `([X, y], [to_categorical(y, num_classes), np.zeros(len(X))])`,
propagating the only possible failure, the one raised by
`to_categorical`. -/
def transform_inputs (X : List (List ℚ)) (y : List Int) (n : Nat) :
    Option ((List (List ℚ) × List Int) × (List (List ℚ) × List ℚ)) :=
  (to_categorical y n).map (fun oh => ((X, y), (oh, List.replicate X.length 0)))

/- ## Class-list parsing (source line 111-117) -/

/-- Python `l.strip()`: leading and trailing whitespace removed
(written over the character list so that it evaluates by kernel
reduction). -/
def pyStrip (s : String) : String :=
  ⟨((s.data.dropWhile Char.isWhitespace).reverse.dropWhile Char.isWhitespace).reverse⟩

/-- First whitespace-separated token of a line: `l.strip().split()[0]`
for a line whose strip is nonempty — the maximal leading run of
non-whitespace characters of the stripped line. -/
def firstToken (l : String) : String :=
  ⟨(pyStrip l).data.takeWhile (fun c => !c.isWhitespace)⟩

/-- Key sequence of the Python `OrderedDict` comprehension: duplicates
dropped, first occurrence kept, first-seen order preserved.  `seen`
accumulates the keys already inserted. -/
def dedupFirstAux (seen : List String) : List String → List String
  | [] => []
  | x :: xs =>
      if x ∈ seen then dedupFirstAux seen xs
      else x :: dedupFirstAux (x :: seen) xs

/-- Duplicate removal keeping the first occurrence of each element. -/
def dedupFirst (l : List String) : List String := dedupFirstAux [] l

/-- Value of a nonempty all-digit character list. -/
def digitsVal : List Char → Option Nat
  | [] => none
  | cs =>
      if cs.all Char.isDigit then
        some (cs.foldl (fun acc c => 10 * acc + (c.toNat - '0'.toNat)) 0)
      else none

/-- Embedding of Python `int(s)` on a whitespace-free token: an optional
sign followed by a nonempty digit string; anything else raises
`ValueError` (modelled as `none`). -/
def pyInt (s : String) : Option Int :=
  match s.data with
  | [] => none
  | c :: rest =>
      if c = '-' then (digitsVal rest).map (fun n => -(n : Int))
      else if c = '+' then (digitsVal rest).map (fun n => (n : Int))
      else (digitsVal (c :: rest)).map (fun n => (n : Int))

/-- Embedding of the class-list parsing at source line 111-117: keys of
`OrderedDict((l.strip().split()[0], None) for l in class_file if
l.strip() != '')`, then `int` conversion of the whole list, kept as
strings when any element fails to parse. -/
def parseClassList (lines : List String) : List String ⊕ List Int :=
  match traverseOption pyInt
      (dedupFirst ((lines.filter (fun l => ¬ pyStrip l = "")).map firstToken)) with
  | some ints => Sum.inr ints
  | none => Sum.inl (dedupFirst ((lines.filter (fun l => ¬ pyStrip l = "")).map firstToken))

/-- Specification-side duplicate removal, written as a left fold that
appends each element not seen so far (a structurally different
description of first-seen-order dedup). -/
def dedupFoldl (l : List String) : List String :=
  l.foldl (fun acc x => if x ∈ acc then acc else acc ++ [x]) []

/-- Specification-side description of the parsed identifier sequence:
the first whitespace-separated tokens of the non-blank lines, duplicates
removed preserving first-seen order. -/
def specClassTokens (lines : List String) : List String :=
  dedupFoldl ((lines.filter (fun l => ¬ pyStrip l = "")).map firstToken)

/- ## Average per-class accuracy (source line 184-188) -/

/-- Length of `np.bincount(labels)`: `max(labels) + 1`, and `0` for the
empty array. -/
def bincountLen (labels : List Nat) : Nat :=
  match labels with
  | [] => 0
  | _ => labels.foldr max 0 + 1

/-- `class_freq[c]`: number of test examples of class `c`. -/
def classFreq (labels : List Nat) (c : Nat) : Nat := labels.count c

/-- Embedding of the printed average accuracy (source line 186-188):
`((test_pred == labels).astype(float) / class_freq[labels]).sum() /
len(class_freq)`, elementwise over the label/prediction arrays. -/
def avgAccuracy (labels preds : List Nat) : ℚ :=
  (((labels.zip preds).map
      (fun lp => (if lp.2 = lp.1 then (1 : ℚ) else 0) / (classFreq labels lp.1 : ℚ))).sum)
    / (bincountLen labels : ℚ)

/-- Number of test examples of class `c` predicted correctly. -/
def correctCount (labels preds : List Nat) (c : Nat) : Nat :=
  (labels.zip preds).countP (fun lp => decide (lp.1 = c ∧ lp.2 = c))

/-- Per-class correct-prediction rate of class `c`. -/
def perClassRate (labels preds : List Nat) (c : Nat) : ℚ :=
  (correctCount labels preds c : ℚ) / (classFreq labels c : ℚ)

/-- Specification-side balanced accuracy: mean over the classes
`0 … bincountLen - 1` of the per-class correct-prediction rate. -/
def meanPerClassAccuracy (labels preds : List Nat) : ℚ :=
  (((List.range (bincountLen labels)).map (perClassRate labels preds)).sum)
    / (bincountLen labels : ℚ)

/-- Plain overall accuracy: fraction of correct predictions. -/
def overallAccuracy (labels preds : List Nat) : ℚ :=
  ((labels.zip preds).countP (fun lp => decide (lp.2 = lp.1)) : ℚ) / (labels.length : ℚ)

/- ## Layer model for `center_loss_model` (source line 17-41) and the
      finetune phase (source line 138-155) -/

/-- A Keras layer as far as the claims are concerned: its name, its
weight arrays (each flattened to a list of rationals) and its
`trainable` flag. -/
structure Layer where
  name : String
  weights : List (List ℚ)
  trainable : Bool
deriving DecidableEq, Repr

/-- Layer list appended to the base model by `center_loss_model`
(source line 17-41), in graph order after the base layers:
the unnamed ReLU `Activation` (Keras auto-names it `activation_1`, it
has no weights), the `embedding_bn` batch normalization, the `prob`
softmax dense layer, the `labels` input, the `cls_centroids` embedding
table — initialized from the fixed matrix and frozen when `centroids`
is a matrix (`Sum.inl`), otherwise left at its framework initialization
`tableInit` and trainable — and the weightless `center_dist` and
`center_loss` lambda layers.  `bnInit` and `probInit` stand for the
framework initializations of the batch-norm and dense weights. -/
def centerLossLayers (baseLayers : List Layer)
    (centroids : List (List ℚ) ⊕ Nat)
    (tableInit bnInit probInit : List (List ℚ)) : List Layer :=
  baseLayers ++
    [ ⟨"activation_1", [], true⟩,
      ⟨"embedding_bn", bnInit, true⟩,
      ⟨"prob", probInit, true⟩,
      ⟨"labels", [], true⟩,
      (match centroids with
        | Sum.inl M => ⟨"cls_centroids", M, false⟩
        | Sum.inr _ => ⟨"cls_centroids", tableInit, true⟩),
      ⟨"center_dist", [], true⟩,
      ⟨"center_loss", [], true⟩ ]

/-- One optimizer step of `fit_generator`: layer structure (names and
`trainable` flags) is unchanged, and a layer whose `trainable` flag is
`false` keeps its weights exactly; trainable layers may receive any
gradient update. -/
def stepOk : List Layer → List Layer → Bool
  | [], [] => true
  | a :: m, b :: m' =>
      (b.name == a.name) && (b.trainable == a.trainable) &&
        (a.trainable || decide (b.weights = a.weights)) && stepOk m m'
  | _, _ => false

/-- Any number of training steps. -/
def TrainRun (m m' : List Layer) : Prop :=
  Relation.ReflTransGen (fun a b => stepOk a b = true) m m'

/-- Layer names made trainable by the finetune loop at source line
142-143: `('embedding', 'embedding_bn', 'prob', 'cls_centroids')`. -/
def headNames : List String := ["embedding", "embedding_bn", "prob", "cls_centroids"]

/-- Loop at source line 142-143: every layer of the combined model gets
`trainable = (name in headNames)`. -/
def finetuneFreezeLoop (m : List Layer) : List Layer :=
  m.map (fun l => { l with trainable := headNames.contains l.name })

/-- Sets the `trainable` flag of the layer at index `i` to `true`
(identity beyond the end of the list). -/
def setTrainableAt : Nat → List Layer → List Layer
  | _, [] => []
  | 0, l :: ls => { l with trainable := true } :: ls
  | n + 1, l :: ls => l :: setTrainableAt n ls

/-- Freeze step of the finetune phase (source line 142-144): the loop
over `model.layers`, then `embed_model.layers[-1].trainable = True`; the
base layers are the first `numBase` entries, so `layers[-1]` of the base
model sits at index `numBase - 1`. -/
def finetuneFreeze (numBase : Nat) (m : List Layer) : List Layer :=
  setTrainableAt (numBase - 1) (finetuneFreezeLoop m)

/-- Loop at source line 154-155: every layer trainable again. -/
def unfreezeAll (m : List Layer) : List Layer :=
  m.map (fun l => { l with trainable := true })

/-- Embedding of `model.load_weights(path, by_name=True,
skip_mismatch=True)` (source line 140): the file is a name-indexed bag
of weight lists; a layer whose name is found and whose weight arrays
match in number and size takes the stored weights, any other layer is
left untouched. -/
def loadWeightsByName (file : List (String × List (List ℚ))) (m : List Layer) : List Layer :=
  m.map (fun l =>
    match file.lookup l.name with
    | some w => if w.map List.length = l.weights.map List.length
                then { l with weights := w } else l
    | none => l)

/-- Python truthiness of an optional string argument (`if args.finetune:`
and friends): present and nonempty. -/
def truthy : Option String → Bool
  | some s => !(s == "")
  | none => false

/- ## Shape calculus for the two model outputs (source line 17-41) -/

/-- Output shape of `Dense(units)`: last axis replaced by `units`. -/
def denseShape (units : Nat) (s : List Nat) : List Nat := s.dropLast ++ [units]

/-- Output shape of `Embedding(num, dim)`: a trailing axis of size `dim`
appended to the integer-input shape. -/
def embeddingShape (dim : Nat) (s : List Nat) : List Nat := s ++ [dim]

/-- Shape of `x[:, None, :]`: an axis of size 1 inserted after the batch
axis. -/
def expandAxis1 : List Nat → List Nat
  | [] => []
  | b :: rest => b :: 1 :: rest

/-- Shape of `K.sum(…, axis=-1)`: last axis removed. -/
def sumLastAxisShape (s : List Nat) : List Nat := s.dropLast

/-- Shape of `keras.layers.subtract([a, b])`: elementwise, so the inputs
must agree in shape and the output keeps it; Keras raises on a mismatch,
modelled by the empty shape. -/
def subtractShape (s1 s2 : List Nat) : List Nat := if s1 = s2 then s1 else []

/-- Output shapes of the model built by `center_loss_model` on a batch of
size `batch`, read off the layer graph of source line 17-41: the `prob`
head is ReLU (shape-preserving), batch normalization
(shape-preserving), then `Dense(num_classes)` on the `(batch,
embed_dim)` base-model output; the `center_loss` head is
`Embedding(num_classes, embed_dim)` on the `(batch, 1)` label input,
subtracted elementwise from the expanded embedding, then summed over the
last axis (the division by 2 does not change the shape). -/
def centerLossModelShapes (batch numClasses embedDim : Nat) : List Nat × List Nat :=
  let embShape : List Nat := [batch, embedDim]
  let probShape := denseShape numClasses embShape
  let clsShape := embeddingShape embedDim [batch, 1]
  let distShape := expandAxis1 embShape
  (probShape, sumLastAxisShape (subtractShape distShape clsShape))

/- ## Value of the center-loss output (source line 35-39) -/

/-- Elementwise difference `embedding - centroid` of the `subtract`
layer named `center_dist`. -/
def centerDistRow (e c : List ℚ) : List ℚ := List.zipWith (fun a b => a - b) e c

/-- The `center_loss` lambda: `K.sum(K.square(x), axis=-1) / 2`. -/
def halfSumSq (v : List ℚ) : ℚ := ((v.map (fun x => x * x)).sum) / 2

/-- Second model output on a batch of (embedding, label) pairs: per
example, the label input is the length-1 list `[label]`, the
`cls_centroids` embedding lookup maps it to the row of the centroid
table, the expanded embedding `[e]` is subtracted from it elementwise,
and the sum of squares over the embedding axis is halved — leaving one
row of length 1 per example. -/
def centerLossOutput2 (table : List (List ℚ)) (batch : List (List ℚ × Nat)) :
    List (List ℚ) :=
  batch.map (fun ex =>
    (([ex.2].map (fun i => centerDistRow ex.1 (table.getD i []))).map halfSumSq))

/-- Half squared Euclidean distance written the way the specification
states it: the sum over the embedding dimension of squared coordinate
differences, halved. -/
def specHalfSqDist (embedDim : Nat) (e c : List ℚ) : ℚ :=
  (((List.range embedDim).map
      (fun i => (e.getD i 0 - c.getD i 0) * (e.getD i 0 - c.getD i 0))).sum) / 2

/- ## Learning-rate decay (source line 166-169) -/

/-- Epoch count used by the full-training phase:
`args.epochs if args.epochs else num_epochs` — the explicit override
when given and nonzero (Python truthiness), otherwise the
schedule-derived count. -/
def effectiveEpochs (epochsArg : Option Nat) (numEpochs : Nat) : Nat :=
  match epochsArg with
  | some e => if e = 0 then numEpochs else e
  | none => numEpochs

/-- Embedding of the decay computation at source line 166-169:
`(1.0/max_decay - 1) / ((num_train // batch_size) * epochs)` when
`max_decay > 0`, else `0.0`. -/
def lrDecay (maxDecay : ℚ) (numTrain batchSize : Nat)
    (epochsArg : Option Nat) (numEpochs : Nat) : ℚ :=
  if maxDecay > 0 then
    (1 / maxDecay - 1) /
      (((numTrain / batchSize : Nat) : ℚ) * ((effectiveEpochs epochsArg numEpochs : Nat) : ℚ))
  else 0

/-- Learning rate of the Keras SGD optimizer with time-based decay after
`t` iterations (batches): `lr * (1 / (1 + decay * iterations))`, the
documented behaviour of `keras.optimizers.SGD(lr, decay=...)` that the
compile call at source line 170 relies on. -/
def kerasSGDLr (lr0 decay : ℚ) (t : Nat) : ℚ := lr0 / (1 + decay * (t : ℚ))

/-- Total number of batches across all epochs as the decay computation
counts them: `(num_train // batch_size) * epochs`. -/
def totalBatches (numTrain batchSize : Nat) (epochsArg : Option Nat) (numEpochs : Nat) : Nat :=
  (numTrain / batchSize) * effectiveEpochs epochsArg numEpochs

/- ## Evaluation and export phase (source line 182-200) -/

/-- Environment of the export phase: the exception message raised by
`model.save_weights` and `model.save`, when they raise (`none` means the
call succeeds). -/
structure SaveEnv where
  weightSaveError : Option String
  modelSaveError : Option String
deriving Repr

/-- Observable outcome of the run tail (source line 182-200). -/
structure ExportOutcome where
  printed : List String
  weightAttempted : Bool
  modelAttempted : Bool
  completed : Bool
deriving Repr

/-- The evaluation printout at source line 186-188. -/
def evalMessage (acc : ℚ) : String := "Average Accuracy: " ++ toString acc

/-- Embedding of the run tail (source line 182-200): the evaluation
result is printed first; then, if `--weight_dump` is truthy,
`model.save_weights` is attempted inside `try/except` and a failure only
prints a message carrying the exception; independently, if
`--model_dump` is truthy, `model.save` is attempted inside its own
`try/except`.  Control always reaches the end. -/
def runTail (acc : ℚ) (weightDump modelDump : Option String) (env : SaveEnv) :
    ExportOutcome :=
  let evalMsgs := [evalMessage acc]
  let wMsgs :=
    if truthy weightDump then
      match env.weightSaveError with
      | some e => ["An error occurred while saving the model weights: " ++ e]
      | none => []
    else []
  let mMsgs :=
    if truthy modelDump then
      match env.modelSaveError with
      | some e => ["An error occurred while saving the model: " ++ e]
      | none => []
    else []
  { printed := evalMsgs ++ wMsgs ++ mMsgs,
    weightAttempted := truthy weightDump,
    modelAttempted := truthy modelDump,
    completed := true }

/- ## Centroid file versus class-list file (source line 103-117) -/

/-- Contents of a pickle produced by `compute_class_embeddings.py`:
`ind2label` (class identifiers, strings or integers) and `embedding`
(the `(num_classes, embed_dim)` centroid matrix). -/
structure CentroidFile where
  ind2label : List String ⊕ List Int
  embedding : List (List ℚ)
deriving Repr

/-- Result of the loading block at source line 103-117: the fixed
centroid matrix (when any), the class list handed to
`get_data_generator`, and the effective embedding dimension. -/
structure LoadedConfig where
  centroids : Option (List (List ℚ))
  classes : Option (List String ⊕ List Int)
  embedDim : Nat
deriving Repr

/-- Embedding of source line 103-117: when `--centroids` is truthy the
pickle is read and supplies both the matrix and the class list
(`ind2label`), and the embedding dimension is `centroids.shape[1]`; the
class-list file is consulted only in the `elif` branch, i.e. when no
centroid path is given (`--class_list` is tested with `is not None`,
not truthiness). -/
def resolveClasses (centroidArg : Option String) (readCentroid : CentroidFile)
    (classListArg : Option (List String)) (embedDimArg : Nat) : LoadedConfig :=
  if truthy centroidArg then
    { centroids := some readCentroid.embedding,
      classes := some readCentroid.ind2label,
      embedDim := (readCentroid.embedding.headD []).length }
  else
    match classListArg with
    | some lines =>
        { centroids := none, classes := some (parseClassList lines), embedDim := embedDimArg }
    | none => { centroids := none, classes := none, embedDim := embedDimArg }

/- ## Helper lemmas -/

theorem traverseOption_all {f : α → Option β} {g : α → β} :
    ∀ {l : List α}, (∀ a ∈ l, f a = some (g a)) →
      traverseOption f l = some (l.map g)
  | [], _ => rfl
  | a :: t, h => by
      have ha := h a (by simp)
      have ht := traverseOption_all (f := f) (g := g)
        (fun x hx => h x (List.mem_cons_of_mem _ hx))
      simp [traverseOption, ha, ht]

theorem traverseOption_eq_none {f : α → Option β} :
    ∀ {l : List α}, traverseOption f l = none ↔ ∃ a ∈ l, f a = none
  | [] => by simp [traverseOption]
  | a :: t => by
      rw [traverseOption]
      rcases hfa : f a with _ | b
      · simp [hfa]
      · rcases ht : traverseOption f t with _ | bs
        · constructor
          · intro _
            rcases (traverseOption_eq_none (f := f) (l := t)).mp ht with ⟨x, hx, hfx⟩
            exact ⟨x, List.mem_cons_of_mem _ hx, hfx⟩
          · intro _; rfl
        · have h2 : ¬ ∃ x ∈ t, f x = none := by
            intro hc
            rw [(traverseOption_eq_none (f := f) (l := t)).mpr hc] at ht
            cases ht
          constructor
          · intro h; cases h
          · intro ⟨x, hx, hfx⟩
            rcases List.mem_cons.mp hx with rfl | hx'
            · rw [hfa] at hfx; cases hfx
            · exact (h2 ⟨x, hx', hfx⟩).elim

theorem npIndex_in_range {n : Nat} {l : Int} (h0 : 0 ≤ l) (h1 : l < (n : Int)) :
    npIndex n l = some l.toNat := by
  simp [npIndex, h0, h1]

theorem npIndex_eq_none {n : Nat} {l : Int} :
    npIndex n l = none ↔ (n : Int) ≤ l ∨ l < -(n : Int) := by
  unfold npIndex
  by_cases h0 : 0 ≤ l ∧ l < (n : Int)
  · simp only [if_pos h0]
    constructor
    · intro h; cases h
    · intro h; omega
  · rw [if_neg h0]
    by_cases h1 : -(n : Int) ≤ l ∧ l < 0
    · simp only [if_pos h1]
      constructor
      · intro h; cases h
      · intro h; omega
    · rw [if_neg h1]
      constructor
      · intro _; omega
      · intro _; rfl

theorem oneHotRow_sum {n i : Nat} (h : i < n) : (oneHotRow n i).sum = 1 := by
  induction n with
  | zero => exact absurd h (Nat.not_lt_zero i)
  | succ m ih =>
      rw [oneHotRow, List.range_succ, List.map_append, List.sum_append]
      by_cases hi : i = m
      · subst hi
        have hz : ∀ j ∈ List.range i, (if j = i then (1 : ℚ) else 0) = 0 := by
          intro j hj
          simp [Nat.ne_of_lt (List.mem_range.mp hj)]
        rw [List.map_congr_left hz]
        simp
      · have hi' : i < m := by omega
        have hs := ih hi'
        rw [oneHotRow] at hs
        rw [hs]
        have : m ≠ i := fun hh => hi hh.symm
        simp [this]

/- ## Claim C5 -/

/-- C5: on a batch whose labels all lie in `[0, num_classes)`,
`transform_inputs X y n` succeeds and returns the images and the raw
integer labels unchanged as inputs, and as targets the one-hot label
matrix — every row of which sums to 1 — together with an all-zero second
target of length `len(X)`. -/
theorem transform_inputs_correct (X : List (List ℚ)) (y : List Int) (n : Nat)
    (hy : ∀ l ∈ y, 0 ≤ l ∧ l < (n : Int)) :
    transform_inputs X y n =
      some ((X, y), (y.map (fun l => oneHotRow n l.toNat), List.replicate X.length 0)) ∧
    (∀ row ∈ y.map (fun l => oneHotRow n l.toNat), row.sum = 1) := by
  constructor
  · have htrav : traverseOption (npIndex n) y = some (y.map Int.toNat) :=
      traverseOption_all (fun l hl => npIndex_in_range (hy l hl).1 (hy l hl).2)
    unfold transform_inputs to_categorical
    rw [htrav]
    simp [Function.comp]
  · intro row hrow
    rcases List.mem_map.mp hrow with ⟨l, hl, rfl⟩
    have hb := hy l hl
    exact oneHotRow_sum (by omega)

/-- Witness for C5 at a concrete batch: two images, labels `[0, 1]`,
two classes. -/
theorem transform_inputs_correct_witness :
    transform_inputs [[1, 2], [3, 4]] [0, 1] 2 =
      some (([[1, 2], [3, 4]], [0, 1]), ([[1, 0], [0, 1]], [0, 0])) ∧
    ([[(1 : ℚ), 0], [0, 1]].all (fun row => row.sum = 1)) := by
  have h := transform_inputs_correct [[1, 2], [3, 4]] [0, 1] 2 (by decide)
  refine ⟨?_, by norm_num⟩
  rw [h.1]
  norm_num [oneHotRow, List.range_succ, List.replicate]

/- ## Claim C6 -/

/-- C6 is false as stated: a negative label inside `[-num_classes, 0)`
does not raise — numpy wrap-around indexing silently one-hots the class
`num_classes + label`.  Concretely, label `-1` with two classes yields
the one-hot row of class 1 and no error. -/
theorem transform_inputs_negative_label_no_error :
    ((-1 : Int) < 0 ∨ (2 : Int) ≤ -1) ∧
    transform_inputs [[5]] [-1] 2 =
      some (([[5]], [-1]), ([[0, 1]], [0])) := by
  constructor
  · exact Or.inl (by norm_num)
  · decide

/-- C6 amended: `transform_inputs X y n` flags an error exactly when
some label is `≥ num_classes` or `< -num_classes`; labels in
`[-num_classes, 0)` are accepted silently through numpy wrap-around
indexing. -/
theorem transform_inputs_error_iff (X : List (List ℚ)) (y : List Int) (n : Nat) :
    transform_inputs X y n = none ↔ ∃ l ∈ y, (n : Int) ≤ l ∨ l < -(n : Int) := by
  unfold transform_inputs to_categorical
  rcases ht : traverseOption (npIndex n) y with _ | idxs
  · constructor
    · intro _
      rcases traverseOption_eq_none.mp ht with ⟨l, hl, hnone⟩
      exact ⟨l, hl, npIndex_eq_none.mp hnone⟩
    · intro _; rfl
  · have hno : ¬ ∃ a ∈ y, npIndex n a = none := by
      intro hc
      rw [traverseOption_eq_none.mpr hc] at ht
      cases ht
    constructor
    · intro h; exact absurd h (by simp)
    · intro ⟨l, hl, hbad⟩
      exact absurd ⟨l, hl, npIndex_eq_none.mpr hbad⟩ hno

/- ## Claim C10 -/

/-- C10: when a centroid file is given (a truthy `--centroids` path),
the resolved configuration does not depend on the class-list argument or
on the `--embed_dim` argument at all — the class-list file is never
consulted — the class list is exactly the `ind2label` mapping of the
centroid file, and the centroid matrix is its `embedding` entry. -/
theorem centroid_file_overrides_class_list (p : String) (hp : p ≠ "")
    (f : CentroidFile) (cl1 cl2 : Option (List String)) (d1 d2 : Nat) :
    resolveClasses (some p) f cl1 d1 = resolveClasses (some p) f cl2 d2 ∧
    (resolveClasses (some p) f cl1 d1).classes = some f.ind2label ∧
    (resolveClasses (some p) f cl1 d1).centroids = some f.embedding := by
  have ht : truthy (some p) = true := by simp [truthy, hp]
  unfold resolveClasses
  rw [ht]
  simp

/-- Witness for C10: a concrete centroid file beats a concrete class
list and a conflicting `--embed_dim`. -/
theorem centroid_file_overrides_class_list_witness :
    resolveClasses (some "c.pickle") ⟨Sum.inl ["a", "b"], [[1, 2], [3, 4]]⟩
        (some ["x 1", "y 2"]) 100
      = resolveClasses (some "c.pickle") ⟨Sum.inl ["a", "b"], [[1, 2], [3, 4]]⟩ none 7 ∧
    (resolveClasses (some "c.pickle") ⟨Sum.inl ["a", "b"], [[1, 2], [3, 4]]⟩
        (some ["x 1", "y 2"]) 100).classes = some (Sum.inl ["a", "b"]) := by
  have h := centroid_file_overrides_class_list "c.pickle" (by decide)
    ⟨Sum.inl ["a", "b"], [[1, 2], [3, 4]]⟩ (some ["x 1", "y 2"]) none 100 7
  exact ⟨h.1, h.2.1⟩

/- ## Claim C9 -/

/-- C9: the run tail always reaches normal completion; the evaluation
printout is produced first, before any export is attempted; a failure of
the weight dump or of the model dump is caught and reported together
with the raised exception text; and whether each export target is
attempted depends only on its own argument, unaffected by the other
target failing. -/
theorem run_tail_export_failures_tolerated (acc : ℚ) (wd md : Option String)
    (env : SaveEnv) :
    (runTail acc wd md env).completed = true ∧
    (runTail acc wd md env).printed.head? = some (evalMessage acc) ∧
    (runTail acc wd md env).weightAttempted = truthy wd ∧
    (runTail acc wd md env).modelAttempted = truthy md ∧
    (∀ e, truthy wd = true → env.weightSaveError = some e →
      ("An error occurred while saving the model weights: " ++ e)
        ∈ (runTail acc wd md env).printed) ∧
    (∀ e, truthy md = true → env.modelSaveError = some e →
      ("An error occurred while saving the model: " ++ e)
        ∈ (runTail acc wd md env).printed) := by
  refine ⟨rfl, rfl, rfl, rfl, ?_, ?_⟩
  · intro e hw he
    simp [runTail, hw, he]
  · intro e hm he
    simp [runTail, hm, he]

/-- Witness for C9: both dumps requested, both saves raise; the run
still completes and both causes are reported after the evaluation
line. -/
theorem run_tail_export_failures_witness :
    (runTail (1/2) (some "w.h5") (some "m.h5") ⟨some "disk full", some "type"⟩).completed
      = true ∧
    ("An error occurred while saving the model weights: disk full")
      ∈ (runTail (1/2) (some "w.h5") (some "m.h5") ⟨some "disk full", some "type"⟩).printed ∧
    ("An error occurred while saving the model: type")
      ∈ (runTail (1/2) (some "w.h5") (some "m.h5") ⟨some "disk full", some "type"⟩).printed := by
  have h := run_tail_export_failures_tolerated (1/2) (some "w.h5") (some "m.h5")
    ⟨some "disk full", some "type"⟩
  exact ⟨h.1, h.2.2.2.2.1 "disk full" (by decide) rfl, h.2.2.2.2.2 "type" (by decide) rfl⟩

/- ## Claim C4 -/

/-- C4 is false as stated: the derived decay makes the learning rate end
at `max_decay` times its initial value — a decay BY a factor of
`1/max_decay` — not AT `1/max_decay` times its initial value.  With
`max_decay = 1/2`, 100 training examples, batch size 10, an explicit
1-epoch override and initial rate 1, the rate after the
`(100 // 10) * 1 = 10` batches of the run is `1/2`, not
`1 * (1 / (1/2)) = 2`. -/
theorem lr_decay_claim_false :
    kerasSGDLr 1 (lrDecay (1/2) 100 10 (some 1) 5) (totalBatches 100 10 (some 1) 5)
      = 1/2 ∧
    kerasSGDLr 1 (lrDecay (1/2) 100 10 (some 1) 5) (totalBatches 100 10 (some 1) 5)
      ≠ 1 * (1 / (1/2 : ℚ)) := by
  constructor
  · norm_num [kerasSGDLr, lrDecay, totalBatches, effectiveEpochs]
  · norm_num [kerasSGDLr, lrDecay, totalBatches, effectiveEpochs]

/-- C4 amended: for positive `max_decay` the decay factor is derived so
that after the `(num_train // batch_size) * epochs` batches of the run —
`epochs` being the explicit override when given and nonzero, otherwise
the schedule-derived count — the Keras time-based learning rate equals
`max_decay` times its initial value, i.e. has decayed by a factor of
`1/max_decay`; for `max_decay = 0` the decay factor is `0`. -/
theorem lr_decay_reaches_max_decay_fraction (maxDecay lr0 : ℚ)
    (numTrain batchSize numEpochs : Nat) (epochsArg : Option Nat)
    (hmd : 0 < maxDecay)
    (hT : totalBatches numTrain batchSize epochsArg numEpochs ≠ 0) :
    kerasSGDLr lr0 (lrDecay maxDecay numTrain batchSize epochsArg numEpochs)
        (totalBatches numTrain batchSize epochsArg numEpochs) = lr0 * maxDecay ∧
    lrDecay 0 numTrain batchSize epochsArg numEpochs = 0 := by
  constructor
  · have hcast : ((totalBatches numTrain batchSize epochsArg numEpochs : ℕ) : ℚ)
        = ((numTrain / batchSize : ℕ) : ℚ)
            * ((effectiveEpochs epochsArg numEpochs : ℕ) : ℚ) := by
      rw [totalBatches]
      push_cast
      ring
    have hBE : ((numTrain / batchSize : ℕ) : ℚ)
        * ((effectiveEpochs epochsArg numEpochs : ℕ) : ℚ) ≠ 0 := by
      rw [totalBatches] at hT
      exact_mod_cast hT
    unfold kerasSGDLr
    rw [lrDecay, if_pos hmd, hcast, div_mul_cancel₀ _ hBE,
      show (1 : ℚ) + (1 / maxDecay - 1) = 1 / maxDecay by ring]
    field_simp
  · simp [lrDecay]

/-- Witness for C4 (amended): 100 examples, batch size 10, no epoch
override, 2 schedule epochs, initial rate 3, `max_decay = 1/2`: the end
rate is `3 * (1/2)`. -/
theorem lr_decay_reaches_max_decay_fraction_witness :
    kerasSGDLr 3 (lrDecay (1/2) 100 10 none 2) (totalBatches 100 10 none 2)
      = 3 * (1/2 : ℚ) ∧
    lrDecay 0 100 10 none 2 = 0 := by
  exact lr_decay_reaches_max_decay_fraction (1/2) 3 100 10 2 none (by norm_num) (by decide)

/- ## Claim C2 -/

theorem zipWith_sq_sum :
    ∀ (d : Nat) (e c : List ℚ), e.length = d → c.length = d →
      ((List.zipWith (fun a b => a - b) e c).map (fun x => x * x)).sum
        = ((List.range d).map
            (fun i => (e.getD i 0 - c.getD i 0) * (e.getD i 0 - c.getD i 0))).sum
  | 0, e, c, he, _ => by
      have : e = [] := List.eq_nil_of_length_eq_zero he
      simp [this]
  | d + 1, [], c, he, hc => by cases he
  | d + 1, a :: e, [], he, hc => by cases hc
  | d + 1, a :: e, b :: c, he, hc => by
      have he' : e.length = d := by simpa using he
      have hc' : c.length = d := by simpa using hc
      have ih := zipWith_sq_sum d e c he' hc'
      rw [List.range_succ_eq_map]
      simp only [List.zipWith_cons_cons, List.map_cons, List.sum_cons, List.map_map,
        List.getD_cons_zero]
      rw [ih]
      congr 1

/-- C2 is false as stated: the second output of the built model has
Keras shape `(batch, 1)`, not `(batch,)` — the label input has shape
`(batch, 1)`, so the `cls_centroids` lookup yields
`(batch, 1, embed_dim)` and the sum over the last axis leaves
`(batch, 1)`.  Concretely, at batch 2, 3 classes and embedding
dimension 4 the second output shape is `[2, 1]`, not `[2]`. -/
theorem center_loss_output_shape_claim_false :
    (centerLossModelShapes 2 3 4).2 = [2, 1] ∧ (centerLossModelShapes 2 3 4).2 ≠ [2] := by
  decide

/-- C2 amended: for every batch size, class count and embedding
dimension, the model built by `center_loss_model` has exactly two
outputs, of shapes `(batch, num_classes)` and `(batch, 1)`; and on any
batch of embeddings paired with in-range labels, each row of the second
output is the single value: half the sum over the embedding dimension of
the squared differences between the example embedding and the centroid
row selected by its label. -/
theorem center_loss_model_outputs_correct
    (batch numClasses embedDim : Nat)
    (table : List (List ℚ)) (b : List (List ℚ × Nat))
    (he : ∀ ex ∈ b, ex.1.length = embedDim)
    (hc : ∀ row ∈ table, row.length = embedDim)
    (hl : ∀ ex ∈ b, ex.2 < table.length) :
    centerLossModelShapes batch numClasses embedDim = ([batch, numClasses], [batch, 1]) ∧
    centerLossOutput2 table b
      = b.map (fun ex => [specHalfSqDist embedDim ex.1 (table.getD ex.2 [])]) := by
  constructor
  · simp [centerLossModelShapes, denseShape, embeddingShape, expandAxis1,
      subtractShape, sumLastAxisShape]
  · unfold centerLossOutput2
    apply List.map_congr_left
    intro ex hex
    have hrowlen : (table.getD ex.2 []).length = embedDim := by
      rw [List.getD_eq_getElem _ _ (hl ex hex)]
      exact hc _ (List.getElem_mem _)
    simp only [List.map_cons, List.map_nil]
    rw [show halfSumSq (centerDistRow ex.1 (table.getD ex.2 []))
          = specHalfSqDist embedDim ex.1 (table.getD ex.2 []) by
      unfold halfSumSq centerDistRow specHalfSqDist
      rw [zipWith_sq_sum embedDim ex.1 (table.getD ex.2 []) (he ex hex) hrowlen]]

/-- Witness for C2 (amended) at a concrete batch: two examples,
embedding dimension 2, centroid table `[[1,0],[3,4]]`. -/
theorem center_loss_model_outputs_witness :
    centerLossModelShapes 2 3 2 = ([2, 3], [2, 1]) ∧
    centerLossOutput2 [[1, 0], [3, 4]] [([1, 2], 0), ([0, 1], 1)] = [[2], [9]] := by
  have h := center_loss_model_outputs_correct 2 3 2 [[1, 0], [3, 4]]
    [([1, 2], 0), ([0, 1], 1)] (by decide) (by decide) (by decide)
  refine ⟨h.1, ?_⟩
  rw [h.2]
  norm_num [specHalfSqDist, List.range_succ]

/- ## Claim C8 -/

theorem foldl_dedup_eq_dedupFirstAux :
    ∀ (l acc seen : List String), (∀ x, x ∈ acc ↔ x ∈ seen) →
      l.foldl (fun acc x => if x ∈ acc then acc else acc ++ [x]) acc
        = acc ++ dedupFirstAux seen l
  | [], acc, seen, _ => by simp [dedupFirstAux]
  | y :: l, acc, seen, h => by
      rw [List.foldl_cons, dedupFirstAux]
      by_cases hy : y ∈ seen
      · rw [if_pos ((h y).mpr hy), if_pos hy]
        exact foldl_dedup_eq_dedupFirstAux l acc seen h
      · rw [if_neg (fun hmem => hy ((h y).mp hmem)), if_neg hy]
        rw [foldl_dedup_eq_dedupFirstAux l (acc ++ [y]) (y :: seen)
          (by intro x; simp [h x, or_comm])]
        simp

theorem dedupFirst_eq_dedupFoldl (l : List String) : dedupFirst l = dedupFoldl l := by
  rw [dedupFirst, dedupFoldl, foldl_dedup_eq_dedupFirstAux l [] [] (by simp)]
  simp

/-- C8: class-list parsing yields the first whitespace-separated token
of every non-blank line, with duplicates removed while preserving
first-seen order (the `OrderedDict` accumulation is proved equal to an
independent left-fold description of first-seen dedup), and the
resulting identifiers are all converted to integers when every one of
them parses as a Python int, while all are kept as strings as soon as
one of them does not. -/
theorem parse_class_list_correct (lines : List String) :
    dedupFirst ((lines.filter (fun l => ¬ pyStrip l = "")).map firstToken)
      = specClassTokens lines ∧
    ((∀ t ∈ specClassTokens lines, (pyInt t).isSome) →
      parseClassList lines
        = Sum.inr ((specClassTokens lines).map (fun t => (pyInt t).getD 0))) ∧
    ((∃ t ∈ specClassTokens lines, pyInt t = none) →
      parseClassList lines = Sum.inl (specClassTokens lines)) := by
  have hdedup : dedupFirst ((lines.filter (fun l => ¬ pyStrip l = "")).map firstToken)
      = specClassTokens lines :=
    dedupFirst_eq_dedupFoldl _
  refine ⟨hdedup, ?_, ?_⟩
  · intro hall
    have htrav : traverseOption pyInt
        (dedupFirst ((lines.filter (fun l => ¬ pyStrip l = "")).map firstToken))
        = some ((specClassTokens lines).map (fun t => (pyInt t).getD 0)) := by
      rw [hdedup]
      apply traverseOption_all
      intro t ht
      rcases hpy : pyInt t with _ | v
      · have := hall t ht
        rw [hpy] at this
        cases this
      · rfl
    unfold parseClassList
    rw [htrav]
  · intro ⟨t, ht, hnone⟩
    have htrav : traverseOption pyInt
        (dedupFirst ((lines.filter (fun l => ¬ pyStrip l = "")).map firstToken)) = none := by
      rw [hdedup]
      exact traverseOption_eq_none.mpr ⟨t, ht, hnone⟩
    unfold parseClassList
    rw [htrav, hdedup]

/-- Witness for C8 at a concrete file: lines `"3 cat"`, an empty line, a
whitespace line, `" 4"`, and the duplicate `"3 dog"` parse to the
integer list `[3, 4]`; with the unparseable line `"n02084071 dog"` added
everything stays a string. -/
theorem parse_class_list_witness :
    parseClassList ["3 cat", "", "  ", " 4", "3 dog"] = Sum.inr [3, 4] ∧
    parseClassList ["3 cat", "n02084071x dog"] = Sum.inl ["3", "n02084071x"] := by
  constructor
  · have h := (parse_class_list_correct ["3 cat", "", "  ", " 4", "3 dog"]).2.1
      (by decide)
    rw [h]
    decide
  · have h := (parse_class_list_correct ["3 cat", "n02084071x dog"]).2.2
      ⟨"n02084071x", by decide, by decide⟩
    rw [h]
    decide

/- ## Claim C3 -/

theorem list_sum_map_add {f g : α → ℚ} :
    ∀ l : List α, (l.map (fun x => f x + g x)).sum = (l.map f).sum + (l.map g).sum
  | [] => by simp
  | a :: l => by
      simp only [List.map_cons, List.sum_cons, list_sum_map_add l]
      ring

theorem sum_indicator_mul (g : Nat → ℚ) (l p : Nat) :
    ∀ K, (((List.range K).map
        (fun c => (if l = c ∧ p = c then (1 : ℚ) else 0) * g c)).sum)
      = if l < K ∧ p = l then g l else 0
  | 0 => by simp
  | K + 1 => by
      rw [List.range_succ, List.map_append, List.sum_append, sum_indicator_mul g l p K]
      by_cases hp : p = l
      · subst hp
        by_cases hl : p < K
        · have hlK : p ≠ K := Nat.ne_of_lt hl
          have hl1 : p < K + 1 := Nat.lt_succ_of_lt hl
          simp [hl, hlK, hl1]
        · by_cases hlK : p = K
          · subst hlK
            simp [Nat.lt_irrefl, Nat.lt_succ_self]
          · have hl1 : ¬ p < K + 1 := by omega
            simp [hl, hlK, hl1]
      · have h1 : ∀ c, ¬ (l = c ∧ p = c) := by
          intro c hc
          exact hp (hc.2.trans hc.1.symm)
        simp [hp, h1]

theorem sum_rates_regroup (g : Nat → ℚ) (K : Nat) :
    ∀ pairs : List (Nat × Nat), (∀ lp ∈ pairs, lp.1 < K) →
      ((pairs.map (fun lp => if lp.2 = lp.1 then g lp.1 else 0)).sum)
        = ((List.range K).map
            (fun c => ((pairs.countP (fun lp => decide (lp.1 = c ∧ lp.2 = c))) : ℚ)
              * g c)).sum
  | [], _ => by simp
  | a :: pairs, h => by
      have ih := sum_rates_regroup g K pairs
        (fun lp hlp => h lp (List.mem_cons_of_mem _ hlp))
      have ha : a.1 < K := h a (by simp)
      simp only [List.map_cons, List.sum_cons, List.countP_cons]
      have expand : ∀ c ∈ List.range K,
          (((pairs.countP (fun lp => decide (lp.1 = c ∧ lp.2 = c)))
              + (if (fun lp => decide (lp.1 = c ∧ lp.2 = c)) a then 1 else 0) : ℕ) : ℚ) * g c
            = ((pairs.countP (fun lp => decide (lp.1 = c ∧ lp.2 = c))) : ℚ) * g c
              + (if a.1 = c ∧ a.2 = c then (1 : ℚ) else 0) * g c := by
        intro c _
        by_cases hc : a.1 = c ∧ a.2 = c
        · simp [hc]
          ring
        · simp [hc]
      rw [List.map_congr_left expand, list_sum_map_add, ← ih,
        sum_indicator_mul g a.1 a.2 K]
      by_cases hp : a.2 = a.1
      · simp [hp, ha]
        ring
      · have : ¬ (a.1 < K ∧ a.2 = a.1) := fun hc => hp hc.2
        simp [hp, this]

theorem mem_le_foldr_max : ∀ (l : List Nat) (x : Nat), x ∈ l → x ≤ l.foldr max 0
  | a :: t, x, h => by
      rw [List.foldr_cons]
      rcases List.mem_cons.mp h with rfl | h'
      · exact le_max_left _ _
      · exact le_trans (mem_le_foldr_max t x h') (le_max_right _ _)

/-- C3: the printed average accuracy equals the mean over the bincount
classes of the per-class correct-prediction rate — every class weighted
equally regardless of its test frequency — and differs from the plain
overall fraction of correct predictions (shown at the imbalanced
instance labels `[0, 1, 1]`, predictions `[1, 1, 1]`, where it is `1/2`
against an overall accuracy of `2/3`). -/
theorem avg_accuracy_is_balanced (labels preds : List Nat)
    (_hlen : preds.length = labels.length)
    (_hcov : ∀ c < bincountLen labels, 0 < labels.count c) :
    avgAccuracy labels preds = meanPerClassAccuracy labels preds ∧
    avgAccuracy [0, 1, 1] [1, 1, 1] = 1/2 ∧
    overallAccuracy [0, 1, 1] [1, 1, 1] = 2/3 := by
  refine ⟨?_,
    by norm_num [avgAccuracy, bincountLen, classFreq, List.zipWith, List.count_cons,
      List.count_nil, List.foldr],
    by norm_num [overallAccuracy, List.zipWith, List.countP, List.countP.go]⟩
  rcases hlab : labels with _ | ⟨a, t⟩
  · simp [avgAccuracy, meanPerClassAccuracy, bincountLen]
  · rw [← hlab]
    have hne : labels ≠ [] := by rw [hlab]; exact List.cons_ne_nil a t
    have hK : ∀ lp ∈ labels.zip preds, lp.1 < bincountLen labels := by
      intro lp hlp
      have hmem : lp.1 ∈ labels := (List.of_mem_zip hlp).1
      have hle := mem_le_foldr_max labels lp.1 hmem
      rw [hlab] at hle ⊢
      show lp.1 < List.foldr max 0 (a :: t) + 1
      omega
    unfold avgAccuracy meanPerClassAccuracy
    congr 1
    have hpoint : ∀ lp ∈ labels.zip preds,
        (if lp.2 = lp.1 then (1 : ℚ) else 0) / (classFreq labels lp.1 : ℚ)
          = (if lp.2 = lp.1 then (1 : ℚ) / (classFreq labels lp.1 : ℚ) else 0) := by
      intro lp _
      by_cases hc : lp.2 = lp.1
      · simp [hc]
      · simp [hc]
    rw [List.map_congr_left hpoint,
      sum_rates_regroup (fun c => (1 : ℚ) / (classFreq labels c : ℚ))
        (bincountLen labels) (labels.zip preds) hK]
    refine congrArg List.sum (List.map_congr_left ?_)
    intro c _
    simp only [perClassRate, correctCount]
    rw [mul_one_div]

/-- Witness for C3 at labels `[0, 1, 1]` and predictions `[0, 1, 0]`:
the balanced accuracy is `(1/1 + 1/2) / 2 = 3/4`. -/
theorem avg_accuracy_is_balanced_witness :
    avgAccuracy [0, 1, 1] [0, 1, 0] = meanPerClassAccuracy [0, 1, 1] [0, 1, 0] ∧
    avgAccuracy [0, 1, 1] [0, 1, 0] = 3/4 := by
  have h := avg_accuracy_is_balanced [0, 1, 1] [0, 1, 0] (by decide) (by decide)
  refine ⟨h.1, ?_⟩
  norm_num [avgAccuracy, bincountLen, classFreq, List.zipWith, List.count_cons,
    List.count_nil, List.foldr]

/- ## Claim C1 -/

theorem stepOk_preserves_frozen :
    ∀ (m m' : List Layer) (i : Nat) (a : Layer), stepOk m m' = true →
      m[i]? = some a → a.trainable = false → m'[i]? = some a
  | [], [], _, _, _, ha, _ => by simp at ha
  | [], _ :: _, _, _, hs, _, _ => by simp [stepOk] at hs
  | _ :: _, [], _, _, hs, _, _ => by simp [stepOk] at hs
  | c :: m, b :: m', 0, a, hs, ha, hf => by
      rw [List.getElem?_cons_zero] at ha ⊢
      injection ha with hca
      subst hca
      rw [stepOk] at hs
      simp only [Bool.and_eq_true, beq_iff_eq, Bool.or_eq_true,
        decide_eq_true_eq] at hs
      obtain ⟨⟨⟨hname, htr⟩, hw⟩, _⟩ := hs
      rcases hw with htrue | hweq
      · rw [hf] at htrue
        cases htrue
      · cases b
        cases c
        simp_all
  | c :: m, b :: m', i + 1, a, hs, ha, hf => by
      rw [List.getElem?_cons_succ] at ha ⊢
      rw [stepOk] at hs
      simp only [Bool.and_eq_true] at hs
      exact stepOk_preserves_frozen m m' i a hs.2 ha hf

theorem trainRun_preserves_frozen {m m' : List Layer} (h : TrainRun m m')
    (i : Nat) (a : Layer) (ha : m[i]? = some a) (hf : a.trainable = false) :
    m'[i]? = some a := by
  induction h with
  | refl => exact ha
  | tail _ hstep ih => exact stepOk_preserves_frozen _ _ i a hstep ih hf

theorem centerLossLayers_cls (base : List Layer) (M tI bI pI : List (List ℚ)) :
    (centerLossLayers base (Sum.inl M) tI bI pI)[base.length + 4]?
      = some ⟨"cls_centroids", M, false⟩ := by
  unfold centerLossLayers
  rw [List.getElem?_append_right (by omega)]
  simp

/-- C1 is false as stated: a run that goes through the finetune phase
unfreezes the fixed centroid table — the loop at source line 142-143
sets `trainable = (name in (..., "cls_centroids"))`, which is `True` for
the centroid layer even when a fixed matrix was supplied — so a
subsequent training step may change its weights.  Concretely, from the
model built with the fixed matrix `[[5], [7]]`, the post-freeze state
admits one valid optimizer step after which the table reads
`[[6], [7]]`. -/
theorem centroid_freeze_claim_false :
    ¬ (∀ m' : List Layer,
        TrainRun (finetuneFreeze 2 (centerLossLayers
            [⟨"input_1", [], true⟩, ⟨"embedding", [[1]], true⟩]
            (Sum.inl [[5], [7]]) [] [[0]] [[0]])) m' →
        (m'[6]?).map (fun l => l.weights) = some [[5], [7]]) := by
  intro hclaim
  have hstep : stepOk
      (finetuneFreeze 2 (centerLossLayers
        [⟨"input_1", [], true⟩, ⟨"embedding", [[1]], true⟩]
        (Sum.inl [[5], [7]]) [] [[0]] [[0]]))
      [⟨"input_1", [], false⟩, ⟨"embedding", [[1]], true⟩,
       ⟨"activation_1", [], false⟩, ⟨"embedding_bn", [[0]], true⟩,
       ⟨"prob", [[0]], true⟩, ⟨"labels", [], false⟩,
       ⟨"cls_centroids", [[6], [7]], true⟩,
       ⟨"center_dist", [], false⟩, ⟨"center_loss", [], false⟩] = true := by
    decide
  have hend := hclaim _ (Relation.ReflTransGen.single hstep)
  exact absurd hend (by decide)

/-- C1 amended: when a fixed centroid matrix is supplied, the centroid
lookup table is initialized from it and marked non-trainable, and in a
run that does NOT enter the finetune phase — where nothing ever resets
`trainable` — its weights equal the original matrix exactly after any
number of training steps; a run entering the finetune phase makes the
table trainable again (the head-layer loop lists `cls_centroids` and the
post-finetune loop marks every layer trainable), so the freeze does not
survive there. -/
theorem frozen_centroids_preserved_without_finetune
    (base : List Layer) (M tI bI pI : List (List ℚ)) (m' : List Layer)
    (h : TrainRun (centerLossLayers base (Sum.inl M) tI bI pI) m') :
    m'[base.length + 4]? = some ⟨"cls_centroids", M, false⟩ :=
  trainRun_preserves_frozen h (base.length + 4) ⟨"cls_centroids", M, false⟩
    (centerLossLayers_cls base M tI bI pI) rfl

/-- Witness for C1 (amended): the freshly built model with fixed matrix
`[[5], [7]]` (a zero-step run) carries the frozen table. -/
theorem frozen_centroids_preserved_witness :
    (centerLossLayers [⟨"input_1", [], true⟩, ⟨"embedding", [[1]], true⟩]
        (Sum.inl [[5], [7]]) [] [[0]] [[0]])[6]?
      = some ⟨"cls_centroids", [[5], [7]], false⟩ :=
  frozen_centroids_preserved_without_finetune
    [⟨"input_1", [], true⟩, ⟨"embedding", [[1]], true⟩]
    [[5], [7]] [] [[0]] [[0]] _ Relation.ReflTransGen.refl

/- ## Claim C7 -/

theorem setTrainableAt_getElem? :
    ∀ (k : Nat) (m : List Layer) (i : Nat),
      (setTrainableAt k m)[i]? = (m[i]?).map
        (fun l => if i = k then { l with trainable := true } else l)
  | _, [], _ => by simp [setTrainableAt]
  | 0, l :: ls, 0 => by simp [setTrainableAt]
  | 0, l :: ls, i + 1 => by simp [setTrainableAt]
  | k + 1, l :: ls, 0 => by simp [setTrainableAt]
  | k + 1, l :: ls, i + 1 => by
      simp only [setTrainableAt, List.getElem?_cons_succ]
      rw [setTrainableAt_getElem? k ls i]
      have hfun : (fun l : Layer => if i = k then { l with trainable := true } else l)
          = (fun l : Layer => if i + 1 = k + 1 then { l with trainable := true } else l) := by
        funext x
        by_cases hik : i = k
        · simp [hik]
        · rw [if_neg hik, if_neg (fun hh => hik (by omega))]
      rw [hfun]

theorem finetuneFreeze_getElem? (numBase : Nat) (m : List Layer) (i : Nat) :
    (finetuneFreeze numBase m)[i]? = (m[i]?).map
      (fun l => { l with
        trainable := headNames.contains l.name || decide (i = numBase - 1) }) := by
  unfold finetuneFreeze finetuneFreezeLoop
  rw [setTrainableAt_getElem?, List.getElem?_map]
  rcases h : m[i]? with _ | l
  · simp
  · by_cases hik : i = numBase - 1
    · simp [hik]
    · simp [hik]

/-- C7 is false as stated: the ReLU activation layer of the head keeps
its auto-generated Keras name (`activation_1`), which is not in the
tuple `('embedding', 'embedding_bn', 'prob', 'cls_centroids')` tested by
the finetune loop, so the loop leaves it frozen rather than trainable.
Concretely, in the model over a two-layer trunk with 3 learned classes,
after the finetune freeze the activation layer (index 2) has
`trainable = false`, while the claim requires every head layer —
activation included — to be set trainable. -/
theorem finetune_activation_not_trainable :
    (finetuneFreeze 2 (centerLossLayers
        [⟨"input_1", [], true⟩, ⟨"embedding", [[1]], true⟩]
        (Sum.inr 3) [[0], [0], [0]] [[0]] [[0]]))[2]?
      = some ⟨"activation_1", [], false⟩ := by
  decide

/-- C7 amended: the finetune phase is entered exactly when a truthy
pre-trained weight path is given; the weight load replaces, layer by
layer, the weights of each layer whose name is found in the file with
matching array count and sizes, leaving every other layer (and every
name and `trainable` flag) untouched; the freeze then sets a layer
trainable exactly when its name is one of `embedding`, `embedding_bn`,
`prob`, `cls_centroids` (the batch-norm, softmax dense and centroid
table, plus any trunk layer named `embedding`) or it is the trunk's
final layer (index `numBase - 1`) — the auto-named ReLU activation layer
stays frozen — and after the phase every layer is set trainable
again. -/
theorem finetune_phase_behaviour (ftArg : Option String)
    (file : List (String × List (List ℚ))) (m : List Layer) (numBase : Nat)
    (_hbase : 1 ≤ numBase) :
    (truthy ftArg = true ↔ ∃ s, ftArg = some s ∧ s ≠ "") ∧
    (∀ i, (finetuneFreeze numBase m)[i]? = (m[i]?).map
      (fun l : Layer => { l with
        trainable := headNames.contains l.name || decide (i = numBase - 1) })) ∧
    (∀ l ∈ unfreezeAll m, l.trainable = true) ∧
    (∀ (i : Nat) (l : Layer), m[i]? = some l →
      ∃ l' : Layer, (loadWeightsByName file m)[i]? = some l' ∧
        l'.name = l.name ∧ l'.trainable = l.trainable ∧
        (∀ w, file.lookup l.name = some w →
          w.map List.length = l.weights.map List.length → l'.weights = w) ∧
        (file.lookup l.name = none → l'.weights = l.weights) ∧
        (∀ w, file.lookup l.name = some w →
          ¬ w.map List.length = l.weights.map List.length →
            l'.weights = l.weights)) := by
  refine ⟨?_, finetuneFreeze_getElem? numBase m, ?_, ?_⟩
  · cases ftArg with
    | none => simp [truthy]
    | some s => simp [truthy]
  · intro l hl
    rcases List.mem_map.mp hl with ⟨x, _, rfl⟩
    rfl
  · intro i l hil
    cases hlk : file.lookup l.name with
    | none =>
        refine ⟨l, ?_, rfl, rfl, ?_, fun _ => rfl, ?_⟩
        · simp [loadWeightsByName, List.getElem?_map, hil, hlk]
        · intro w hw
          cases hw
        · intro w hw _
          cases hw
    | some w =>
        by_cases hsh : w.map List.length = l.weights.map List.length
        · refine ⟨({ l with weights := w } : Layer), ?_, rfl, rfl, ?_, ?_, ?_⟩
          · simp [loadWeightsByName, List.getElem?_map, hil, hlk, hsh]
          · intro w' hw' _
            exact Option.some.inj hw'
          · intro hnone
            cases hnone
          · intro w' hw' hmis
            rw [← Option.some.inj hw'] at hmis
            exact (hmis hsh).elim
        · refine ⟨l, ?_, rfl, rfl, ?_, fun _ => rfl, fun _ _ _ => rfl⟩
          · simp [loadWeightsByName, List.getElem?_map, hil, hlk, hsh]
          · intro w' hw' hok
            rw [← Option.some.inj hw'] at hok
            exact (hsh hok).elim

/-- Witness for C7 (amended) at a one-layer trunk named `prob`-headed
model fragment: entering on `some "w.h5"`, freezing keeps the `prob`
layer trainable, and the unfreeze loop makes everything trainable. -/
theorem finetune_phase_behaviour_witness :
    truthy (some "w.h5") = true ∧
    (finetuneFreeze 1 [⟨"prob", [[0]], true⟩])[0]? = some ⟨"prob", [[0]], true⟩ ∧
    (∀ l ∈ unfreezeAll [⟨"prob", [[0]], true⟩], l.trainable = true) := by
  have h := finetune_phase_behaviour (some "w.h5") [("prob", [[1]])]
    [⟨"prob", [[0]], true⟩] 1 (by decide)
  refine ⟨h.1.mpr ⟨"w.h5", rfl, by decide⟩, ?_, h.2.2.1⟩
  rw [h.2.1 0]
  decide
